import Mathlib

/-!
Verification of the `ogma-rs` persisted key-value store (`src/store.rs`,
`src/error.rs`) against its specification.

The embedding translates the Rust source shallowly:

* bytes are `Nat`, byte streams are `List Nat`;
* the Rust `HashMap<K, V>` is an association list with unique keys;
  `HashMap::insert` / `HashMap::remove` / `HashMap::get` are embedded as
  `hmInsert` / `hmRemove` / `alGet`, mirroring their return values;
* the external collaborators (`rmp_serde` structured codec and the `zstd`
  stream codec) are pluggable dependencies of the core, embedded as an
  abstract `Codec` record; their round-trip laws (spec section 6) appear as
  hypotheses of the theorems that need them, and a concrete executable
  instance `natCodec` is used for witnesses;
* the filesystem visible to `save` is the pair of the destination path's
  node and the sibling temporary path's node (`FsState`); `Store::save` is
  embedded step by step with a `FaultSpec` record injecting a failure at
  each fallible point of the source, and `Store::open` reads the node found
  at `options.path`.
-/

namespace Ogma

/-- A byte of a persisted file. -/
abbrev Byte := Nat

/-- A byte stream. -/
abbrev Bytes := List Byte

/-- `const MAGIC_ID: &[u8] = b"OGMA";` -/
def MAGIC_ID : Bytes := [0x4F, 0x47, 0x4D, 0x41]

/-- `const VERSION: u16 = 3;` -/
def VERSION : Nat := 3

/-- `CompressionLevel::ZSTD_MIN` -/
def ZSTD_MIN : Int := -7

/-- `CompressionLevel::ZSTD_MAX` -/
def ZSTD_MAX : Int := 22

/-- Rust `i32::clamp(lo, hi)` (from `Ord::clamp`):
`if self < min { min } else if self > max { max } else { self }`. -/
def i32Clamp (x lo hi : Int) : Int :=
  if x < lo then lo else if hi < x then hi else x

/-- `pub struct CompressionLevel(i32);` -/
structure CompressionLevel where
  lvl : Int
deriving DecidableEq, Repr

/-- `CompressionLevel::new(level)`: `Self(level.clamp(Self::ZSTD_MIN, Self::ZSTD_MAX))`. -/
def CompressionLevel.new (level : Int) : CompressionLevel :=
  ⟨i32Clamp level ZSTD_MIN ZSTD_MAX⟩

/-- `CompressionLevel::FAST`, also the `DEFAULT`. -/
def CompressionLevel.FAST : CompressionLevel := ⟨3⟩

/-- `StoreOptions { path, compression_level }`; paths are embedded as strings. -/
structure StoreOptions where
  path : String
  compression_level : CompressionLevel
deriving DecidableEq, Repr

/-- The error enum of `src/error.rs`. -/
inductive Error where
  | Io
  | InvalidFile
  | WrongVersion (expected actual : Nat)
  | Decode
  | Encode
deriving DecidableEq, Repr

variable {K V : Type}

/-- `HashMap::get`: the value stored at `k`, if any. -/
def alGet [DecidableEq K] (m : List (K × V)) (k : K) : Option V :=
  match m with
  | [] => none
  | (k', v) :: rest => if k' = k then some v else alGet rest k

/-- `HashMap::insert`: replaces the value at `k` if present (returning the old
value), otherwise adds the pair; the returned pair is (old value, new map). -/
def hmInsert [DecidableEq K] (m : List (K × V)) (k : K) (v : V) :
    Option V × List (K × V) :=
  match m with
  | [] => (none, [(k, v)])
  | (k', v') :: rest =>
    if k' = k then (some v', (k', v) :: rest)
    else
      let r := hmInsert rest k v
      (r.1, (k', v') :: r.2)

/-- `HashMap::remove`: removes the pair at `k` if present, returning the old
value; the returned pair is (old value, new map). -/
def hmRemove [DecidableEq K] (m : List (K × V)) (k : K) :
    Option V × List (K × V) :=
  match m with
  | [] => (none, [])
  | (k', v') :: rest =>
    if k' = k then (some v', rest)
    else
      let r := hmRemove rest k
      (r.1, (k', v') :: r.2)

/-- The `HashMap` invariant: keys are pairwise distinct. -/
def keysNodup (m : List (K × V)) : Prop := (m.map Prod.fst).Nodup

instance [DecidableEq K] (m : List (K × V)) : Decidable (keysNodup m) :=
  inferInstanceAs (Decidable (m.map Prod.fst).Nodup)

/-- `pub struct Store<K, V> { map: HashMap<K, V>, options: StoreOptions }`. -/
structure Store (K V : Type) where
  map : List (K × V)
  options : StoreOptions
deriving DecidableEq

/-- `Store::new(options)`. -/
def Store.new (options : StoreOptions) : Store K V :=
  { map := [], options := options }

/-- `Store::get(&self, key)` (modulo borrowing). -/
def Store.get [DecidableEq K] (st : Store K V) (k : K) : Option V :=
  alGet st.map k

/-- `Store::set(&mut self, key, value)`: the returned previous value together
with the store after the mutation. -/
def Store.set [DecidableEq K] (st : Store K V) (k : K) (v : V) :
    Option V × Store K V :=
  let r := hmInsert st.map k v
  (r.1, { st with map := r.2 })

/-- `Store::delete(&mut self, key)`: the returned removed value together with
the store after the mutation. -/
def Store.delete [DecidableEq K] (st : Store K V) (k : K) :
    Option V × Store K V :=
  let r := hmRemove st.map k
  (r.1, { st with map := r.2 })

/-- `Store::len`. -/
def Store.len (st : Store K V) : Nat := st.map.length

/-- The external collaborators, spec section 6: the structured byte-codec
(`rmp_serde` in the source, serializing the store's map) and the compression
codec (`zstd` in the source, parameterized by the compression level).
The core only calls them through this interface. -/
structure Codec (K V : Type) where
  encode : List (K × V) → Bytes
  decode : Bytes → Except Unit (List (K × V))
  compress : Int → Bytes → Bytes
  decompress : Bytes → Except Unit Bytes

/-- A filesystem node: a regular file with its content, or something else
that exists at the path (a directory, say). -/
inductive FsNode where
  | file (content : Bytes)
  | dir
deriving DecidableEq, Repr

/-- The part of the filesystem `Store::save` touches: the node at the
destination path `options.path` and the node at the sibling temporary path
(`path.with_extension("ogma.tmp")`). -/
structure FsState where
  dest : Option FsNode
  temp : Option FsNode
deriving DecidableEq, Repr

/-- `file.read_exact(&mut magic_id)` for a 4-byte buffer: the first four
bytes of the stream, or an I/O error (`UnexpectedEof`) on a shorter stream. -/
def readExact4 (bs : Bytes) : Option Bytes :=
  match bs with
  | b0 :: b1 :: b2 :: b3 :: _ => some [b0, b1, b2, b3]
  | _ => none

/-- `file.read_u16::<LittleEndian>()`: the next two bytes as an unsigned
little-endian integer, or an I/O error on a shorter stream. -/
def readU16LE (bs : Bytes) : Option Nat :=
  match bs with
  | b0 :: b1 :: _ => some (b0 + 256 * b1)
  | _ => none

/-- Deserializing a `HashMap` inserts each decoded record in order; a later
duplicate key overwrites an earlier one. -/
def buildMap [DecidableEq K] (pairs : List (K × V)) : List (K × V) :=
  pairs.foldl (fun m p => (hmInsert m p.1 p.2).2) []

/-- `Store::open(options)`. `node` is what the filesystem holds at
`options.path`: `none` when the path does not exist, `some FsNode.dir` when
it exists but is not a regular file (the `!path.exists() || !path.is_file()`
test), `some (FsNode.file content)` otherwise. The magic identifier is
compared first (`InvalidFile`), then the version (`WrongVersion`), then the
body is decompressed and decoded; the result keeps the caller's `options`
(`Ok(Self { options, ..store })`). -/
def Store.openStore [DecidableEq K] (c : Codec K V) (options : StoreOptions)
    (node : Option FsNode) : Except Error (Store K V) :=
  match node with
  | none => .ok { map := [], options := options }
  | some .dir => .ok { map := [], options := options }
  | some (.file content) =>
    match readExact4 content with
    | none => .error .Io
    | some magic_id =>
      if magic_id ≠ MAGIC_ID then .error .InvalidFile
      else
        match readU16LE (content.drop 4) with
        | none => .error .Io
        | some version =>
          if version ≠ VERSION then .error (.WrongVersion VERSION version)
          else
            match c.decompress (content.drop 6) with
            | .error _ => .error .Decode
            | .ok payload =>
              match c.decode payload with
              | .error _ => .error .Decode
              | .ok pairs => .ok { map := buildMap pairs, options := options }

/-- One flag per fallible step of `Store::save`, in source order: the `?`
operators on `File::create`, the two header writes, `Encoder::new`,
`rmp_serde::encode::write`, `enc.finish()`, `sync_all`, `flush`, and
`std::fs::rename`. A set flag makes that step fail. -/
structure FaultSpec where
  createFails : Bool
  writeMagicFails : Bool
  writeVersionFails : Bool
  newEncoderFails : Bool
  encodeFails : Bool
  finishFails : Bool
  syncFails : Bool
  flushFails : Bool
  renameFails : Bool
deriving DecidableEq, Repr

/-- The fault assignment under which every step succeeds. -/
def noFaults : FaultSpec :=
  ⟨false, false, false, false, false, false, false, false, false⟩

/-- `Store::save(&self)`. Every write before the final rename goes to the
temporary path; the destination node changes only at
`std::fs::rename(&temp_path, &self.options.path)`, which atomically replaces
it with the temporary file and removes the temporary path. Each fallible
step consults `faults` and, on failure, returns the error mapped by the
source (`Io` for filesystem failures, `Encode` for `rmp_serde::encode`)
together with the filesystem as it stands at that point. -/
def Store.save [DecidableEq K] (c : Codec K V) (faults : FaultSpec)
    (st : Store K V) (fs : FsState) : Except Error Unit × FsState :=
  if faults.createFails then (.error .Io, fs)
  else
    let fs1 : FsState := { fs with temp := some (.file []) }
    if faults.writeMagicFails then (.error .Io, fs1)
    else
      let fs2 : FsState := { fs with temp := some (.file MAGIC_ID) }
      if faults.writeVersionFails then (.error .Io, fs2)
      else
        let header : Bytes := MAGIC_ID ++ [VERSION % 256, VERSION / 256 % 256]
        let fs3 : FsState := { fs with temp := some (.file header) }
        if faults.newEncoderFails then (.error .Io, fs3)
        else if faults.encodeFails then (.error .Encode, fs3)
        else if faults.finishFails then (.error .Io, fs3)
        else
          let body : Bytes :=
            c.compress st.options.compression_level.lvl (c.encode st.map)
          let fs4 : FsState := { fs with temp := some (.file (header ++ body)) }
          if faults.syncFails then (.error .Io, fs4)
          else if faults.flushFails then (.error .Io, fs4)
          else if faults.renameFails then (.error .Io, fs4)
          else (.ok (), { dest := some (.file (header ++ body)), temp := none })

/-- A concrete executable instance of the collaborator interface, used for
witnesses: records are flattened to `[k₁, v₁, k₂, v₂, …]` and compression is
the identity transform. -/
def natEncode : List (Nat × Nat) → Bytes
  | [] => []
  | (k, v) :: rest => k :: v :: natEncode rest

/-- Inverse of `natEncode`; fails on an odd-length stream. -/
def natDecode : Bytes → Except Unit (List (Nat × Nat))
  | [] => .ok []
  | k :: v :: rest =>
    match natDecode rest with
    | .ok ps => .ok ((k, v) :: ps)
    | .error e => .error e
  | _ :: [] => .error ()

/-- The concrete codec built from `natEncode`/`natDecode`. -/
def natCodec : Codec Nat Nat :=
  { encode := natEncode
    decode := natDecode
    compress := fun _ b => b
    decompress := fun b => .ok b }

/-- `natDecode` inverts `natEncode` (the value round-trip law of the
structured byte-codec, spec section 6). -/
theorem natDecode_natEncode (m : List (Nat × Nat)) : natDecode (natEncode m) = .ok m := by
  induction m with
  | nil => rfl
  | cons p rest ih => cases p; simp [natEncode, natDecode, ih]

/-! ### Lemmas about the embedded `HashMap` operations -/

theorem hmInsert_fst [DecidableEq K] (m : List (K × V)) (k : K) (v : V) :
    (hmInsert m k v).1 = alGet m k := by
  induction m with
  | nil => rfl
  | cons p rest ih =>
    cases p with
    | mk k' v' =>
      by_cases h : k' = k <;> simp [hmInsert, alGet, h, ih]

theorem hmRemove_fst [DecidableEq K] (m : List (K × V)) (k : K) :
    (hmRemove m k).1 = alGet m k := by
  induction m with
  | nil => rfl
  | cons p rest ih =>
    cases p with
    | mk k' v' =>
      by_cases h : k' = k <;> simp [hmRemove, alGet, h, ih]

theorem alGet_hmInsert_self [DecidableEq K] (m : List (K × V)) (k : K) (v : V) :
    alGet (hmInsert m k v).2 k = some v := by
  induction m with
  | nil => simp [hmInsert, alGet]
  | cons p rest ih =>
    cases p with
    | mk k' v' =>
      by_cases h : k' = k <;> simp [hmInsert, alGet, h, ih]

theorem alGet_hmInsert_other [DecidableEq K] (m : List (K × V)) (k k' : K)
    (v : V) (hne : k' ≠ k) : alGet (hmInsert m k v).2 k' = alGet m k' := by
  have hne' : k ≠ k' := Ne.symm hne
  induction m with
  | nil => simp [hmInsert, alGet, hne']
  | cons p rest ih =>
    cases p with
    | mk k0 v0 =>
      by_cases h : k0 = k
      · subst h
        simp [hmInsert, alGet, hne']
      · simp only [hmInsert, if_neg h]
        by_cases h' : k0 = k' <;> simp [alGet, h', ih]

theorem alGet_hmRemove_other [DecidableEq K] (m : List (K × V)) (k k' : K)
    (hne : k' ≠ k) : alGet (hmRemove m k).2 k' = alGet m k' := by
  have hne' : k ≠ k' := Ne.symm hne
  induction m with
  | nil => simp [hmRemove, alGet]
  | cons p rest ih =>
    cases p with
    | mk k0 v0 =>
      by_cases h : k0 = k
      · subst h
        simp [hmRemove, alGet, hne']
      · simp only [hmRemove, if_neg h]
        by_cases h' : k0 = k' <;> simp [alGet, h', ih]

theorem alGet_none_of_not_mem_keys [DecidableEq K] (m : List (K × V)) (k : K)
    (h : k ∉ m.map Prod.fst) : alGet m k = none := by
  induction m with
  | nil => rfl
  | cons p rest ih =>
    cases p with
    | mk k' v' =>
      simp only [List.map_cons, List.mem_cons] at h
      push_neg at h
      simp [alGet, Ne.symm h.1, ih h.2]

theorem alGet_hmRemove_self [DecidableEq K] (m : List (K × V)) (k : K)
    (hnd : keysNodup m) : alGet (hmRemove m k).2 k = none := by
  induction m with
  | nil => rfl
  | cons p rest ih =>
    cases p with
    | mk k' v' =>
      unfold keysNodup at hnd
      simp only [List.map_cons, List.nodup_cons] at hnd
      by_cases h : k' = k
      · subst h
        simpa [hmRemove, alGet] using alGet_none_of_not_mem_keys rest k' hnd.1
      · simp [hmRemove, alGet, h, ih hnd.2]

theorem hmInsert_of_not_mem_keys [DecidableEq K] (m : List (K × V)) (k : K)
    (v : V) (h : k ∉ m.map Prod.fst) : (hmInsert m k v).2 = m ++ [(k, v)] := by
  induction m with
  | nil => rfl
  | cons p rest ih =>
    cases p with
    | mk k' v' =>
      simp only [List.map_cons, List.mem_cons] at h
      push_neg at h
      simp [hmInsert, Ne.symm h.1, ih h.2]

theorem buildMap_go_eq [DecidableEq K] (xs acc : List (K × V))
    (h : ((acc ++ xs).map Prod.fst).Nodup) :
    xs.foldl (fun m p => (hmInsert m p.1 p.2).2) acc = acc ++ xs := by
  induction xs generalizing acc with
  | nil => simp
  | cons p rest ih =>
    cases p with
    | mk k v =>
      have hmid : (((acc ++ [(k, v)]) ++ rest).map Prod.fst).Nodup := by
        simpa [List.append_assoc] using h
      have hk : k ∉ acc.map Prod.fst := by
        have := h
        simp only [List.map_append, List.map_cons] at this
        have h2 := (@List.nodup_middle K k (acc.map Prod.fst) (rest.map Prod.fst)).mp this
        rw [List.nodup_cons] at h2
        exact fun hmem => h2.1 (List.mem_append_left _ hmem)
      calc (((k, v) :: rest).foldl (fun m p => (hmInsert m p.1 p.2).2) acc)
          = rest.foldl (fun m p => (hmInsert m p.1 p.2).2) (acc ++ [(k, v)]) := by
            simp [List.foldl_cons, hmInsert_of_not_mem_keys acc k v hk]
        _ = (acc ++ [(k, v)]) ++ rest := ih (acc ++ [(k, v)]) hmid
        _ = acc ++ (k, v) :: rest := by simp

theorem buildMap_eq_self [DecidableEq K] (m : List (K × V)) (h : keysNodup m) :
    buildMap m = m := by
  unfold buildMap
  simpa using buildMap_go_eq m [] h

/-! ### Helper lemmas about `Store::open` on particular file shapes -/

/-- `read_exact` on a stream of fewer than 4 bytes fails, so `open` surfaces
the I/O error. -/
theorem openStore_io_of_short [DecidableEq K] (c : Codec K V)
    (options : StoreOptions) (content : Bytes) (h : content.length < 4) :
    Store.openStore c options (some (FsNode.file content)) = .error .Io := by
  rcases content with _ | ⟨b0, _ | ⟨b1, _ | ⟨b2, _ | ⟨b3, rest⟩⟩⟩⟩
  · rfl
  · rfl
  · rfl
  · rfl
  · simp only [List.length_cons] at h
    omega

/-- Correct magic but fewer than 2 further bytes: `read_u16` fails, so `open`
surfaces the I/O error. -/
theorem openStore_io_of_magic_short [DecidableEq K] (c : Codec K V)
    (options : StoreOptions) (rest : Bytes) (h : rest.length < 2) :
    Store.openStore c options (some (FsNode.file (MAGIC_ID ++ rest))) = .error .Io := by
  rcases rest with _ | ⟨b0, _ | ⟨b1, tail⟩⟩
  · rfl
  · rfl
  · simp only [List.length_cons] at h
    omega

/-- `open` on a well-formed header followed by a body the codec accepts. -/
theorem openStore_of_valid_content [DecidableEq K] (c : Codec K V)
    (options : StoreOptions) (body payload : Bytes) (pairs : List (K × V))
    (hdc : c.decompress body = .ok payload) (hde : c.decode payload = .ok pairs) :
    Store.openStore c options
        (some (FsNode.file (MAGIC_ID ++ VERSION % 256 :: VERSION / 256 % 256 :: body))) =
      .ok { map := buildMap pairs, options := options } := by
  have hc : MAGIC_ID ++ VERSION % 256 :: VERSION / 256 % 256 :: body =
      0x4F :: 0x47 :: 0x4D :: 0x41 :: 3 :: 0 :: body := rfl
  rw [hc]
  simp [Store.openStore, readExact4, readU16LE, MAGIC_ID, VERSION, hdc, hde]

/-! ### Concrete data used by witnesses -/

/-- Concrete options used by the witnesses. -/
def opts0 : StoreOptions :=
  { path := "store.ogma", compression_level := CompressionLevel.FAST }

/-- A concrete one-entry store. -/
def st1 : Store Nat Nat := { map := [(1, 10)], options := opts0 }

/-- A concrete two-entry store. -/
def st2 : Store Nat Nat := { map := [(1, 10), (2, 20)], options := opts0 }

/-- A filesystem with nothing at either path. -/
def fsEmpty : FsState := { dest := none, temp := none }

/-- A filesystem with previously persisted content at the destination. -/
def fsPrev : FsState := { dest := some (.file [1, 2, 3]), temp := none }

/-- The fault assignment making only `rmp_serde::encode::write` fail. -/
def encodeFault : FaultSpec := { noFaults with encodeFails := true }

/-! ### Claim theorems -/

/-- C7: for every integer input, `CompressionLevel::new` returns the input
clamped into `[ZSTD_MIN, ZSTD_MAX]` = `[-7, 22]`: below-range inputs yield
the minimum, above-range inputs the maximum, in-range inputs are unchanged
(this is exactly `lvl = max ZSTD_MIN (min level ZSTD_MAX)`), and the result
always lies in the valid range; the constructor is total, so it never fails. -/
theorem compressionLevel_new_clamps (level : Int) :
    (CompressionLevel.new level).lvl = max ZSTD_MIN (min level ZSTD_MAX) ∧
    ZSTD_MIN ≤ (CompressionLevel.new level).lvl ∧
    (CompressionLevel.new level).lvl ≤ ZSTD_MAX := by
  have h : (CompressionLevel.new level).lvl = i32Clamp level ZSTD_MIN ZSTD_MAX := rfl
  rw [h]
  unfold i32Clamp ZSTD_MIN ZSTD_MAX
  refine ⟨?_, ?_, ?_⟩ <;> (split_ifs <;> omega)

/-- C6: `set` on a key already present returns `some` of the previously
stored value, `set` on an absent key returns `none`, and `delete` on an
absent key returns `none`. -/
theorem set_delete_return_values [DecidableEq K] (st : Store K V) (k : K) (v w : V) :
    (Store.get st k = some w → (Store.set st k v).1 = some w) ∧
    (Store.get st k = none → (Store.set st k v).1 = none) ∧
    (Store.get st k = none → (Store.delete st k).1 = none) := by
  have hs : (Store.set st k v).1 = Store.get st k := hmInsert_fst st.map k v
  have hd : (Store.delete st k).1 = Store.get st k := hmRemove_fst st.map k
  exact ⟨fun h => hs.trans h, fun h => hs.trans h, fun h => hd.trans h⟩

/-- Witness for C6, at the concrete store `st1 = {1 ↦ 10}`. -/
theorem set_delete_return_values_witness :
    (Store.get st1 1 = some 10 ∧ (Store.set st1 1 99).1 = some 10) ∧
    (Store.get st1 2 = none ∧ (Store.set st1 2 5).1 = none) ∧
    (Store.get st1 2 = none ∧ (Store.delete st1 2).1 = none) :=
  ⟨⟨rfl, (set_delete_return_values st1 1 99 10).1 rfl⟩,
   ⟨rfl, (set_delete_return_values st1 2 5 0).2.1 rfl⟩,
   ⟨rfl, (set_delete_return_values st1 2 5 0).2.2 rfl⟩⟩

/-- C9: after `set k v` the lookup of `k` yields `some v` and every other
key's lookup is unchanged; after `delete k` the lookup of `k` yields `none`
and every other key's lookup is unchanged. -/
theorem get_frame_set_delete [DecidableEq K] (st : Store K V) (k k' : K) (v : V)
    (hnd : keysNodup st.map) (hne : k' ≠ k) :
    Store.get (Store.set st k v).2 k = some v ∧
    Store.get (Store.set st k v).2 k' = Store.get st k' ∧
    Store.get (Store.delete st k).2 k = none ∧
    Store.get (Store.delete st k).2 k' = Store.get st k' :=
  ⟨alGet_hmInsert_self st.map k v,
   alGet_hmInsert_other st.map k k' v hne,
   alGet_hmRemove_self st.map k hnd,
   alGet_hmRemove_other st.map k k' hne⟩

/-- Witness for C9, at the concrete store `st1 = {1 ↦ 10}`, `k = 1`, `k' = 2`. -/
theorem get_frame_set_delete_witness :
    keysNodup st1.map ∧ (2 : Nat) ≠ 1 ∧
    (Store.get (Store.set st1 1 7).2 1 = some 7 ∧
     Store.get (Store.set st1 1 7).2 2 = Store.get st1 2 ∧
     Store.get (Store.delete st1 1).2 1 = none ∧
     Store.get (Store.delete st1 1).2 2 = Store.get st1 2) :=
  ⟨by decide, by decide, get_frame_set_delete st1 1 2 7 (by decide) (by decide)⟩

/-- C3: `open` on a path that does not exist, or exists but is not a regular
file, returns `Ok` with an empty store (zero entries), never an error. -/
theorem openStore_missing_or_nonfile [DecidableEq K] (c : Codec K V)
    (options : StoreOptions) (node : Option FsNode)
    (h : node = none ∨ node = some FsNode.dir) :
    Store.openStore c options node = .ok { map := [], options := options } := by
  rcases h with h | h <;> subst h <;> rfl

/-- Witness for C3, at a missing path. -/
theorem openStore_missing_or_nonfile_witness :
    ((none : Option FsNode) = none ∨ (none : Option FsNode) = some FsNode.dir) ∧
    Store.openStore natCodec opts0 none =
      .ok { map := ([] : List (Nat × Nat)), options := opts0 } :=
  ⟨Or.inl rfl, openStore_missing_or_nonfile natCodec opts0 none (Or.inl rfl)⟩

/-- C4: on an existing regular file with at least 4 bytes whose first 4 bytes
differ from the magic identifier, `open` fails with `InvalidFile`, whatever
the rest of the content. -/
theorem openStore_bad_magic [DecidableEq K] (c : Codec K V) (options : StoreOptions)
    (content : Bytes) (hlen : 4 ≤ content.length) (hm : content.take 4 ≠ MAGIC_ID) :
    Store.openStore c options (some (FsNode.file content)) = .error .InvalidFile := by
  rcases content with _ | ⟨b0, _ | ⟨b1, _ | ⟨b2, _ | ⟨b3, rest⟩⟩⟩⟩
  · simp at hlen
  · simp at hlen
  · simp at hlen
  · simp at hlen
  · have htake : (b0 :: b1 :: b2 :: b3 :: rest).take 4 = [b0, b1, b2, b3] := rfl
    rw [htake] at hm
    simp [Store.openStore, readExact4, hm]

/-- Witness for C4, at the 4-byte file `[0, 0, 0, 0]`. -/
theorem openStore_bad_magic_witness :
    4 ≤ ([0, 0, 0, 0] : Bytes).length ∧ ([0, 0, 0, 0] : Bytes).take 4 ≠ MAGIC_ID ∧
    Store.openStore natCodec opts0 (some (FsNode.file [0, 0, 0, 0])) = .error .InvalidFile :=
  ⟨by decide, by decide, openStore_bad_magic natCodec opts0 [0, 0, 0, 0] (by decide) (by decide)⟩

/-- C5: on an existing regular file starting with the magic identifier whose
next two bytes, read as an unsigned little-endian integer, differ from the
supported version, `open` fails with `WrongVersion` carrying the supported
version as `expected` and the file's value as `actual`. -/
theorem openStore_wrong_version [DecidableEq K] (c : Codec K V) (options : StoreOptions)
    (b4 b5 : Byte) (tail : Bytes) (hv : b4 + 256 * b5 ≠ VERSION) :
    Store.openStore c options (some (FsNode.file (MAGIC_ID ++ b4 :: b5 :: tail))) =
      .error (.WrongVersion VERSION (b4 + 256 * b5)) := by
  have hc : MAGIC_ID ++ b4 :: b5 :: tail = 0x4F :: 0x47 :: 0x4D :: 0x41 :: b4 :: b5 :: tail := rfl
  rw [hc]
  simp only [VERSION] at hv
  simp [Store.openStore, readExact4, readU16LE, MAGIC_ID, VERSION, hv]

/-- Witness for C5, at the file `MAGIC_ID ++ [2, 0]` carrying version 2. -/
theorem openStore_wrong_version_witness :
    ((2 : Byte) + 256 * 0 ≠ VERSION) ∧
    Store.openStore natCodec opts0 (some (FsNode.file (MAGIC_ID ++ 2 :: 0 :: []))) =
      .error (.WrongVersion VERSION (2 + 256 * 0)) :=
  ⟨by decide, openStore_wrong_version natCodec opts0 2 0 [] (by decide)⟩

/-- C8: whenever `open` succeeds, the returned store carries exactly the
options the caller supplied, no matter what node was found at the path:
configuration is never read from the persisted file. -/
theorem openStore_keeps_caller_options [DecidableEq K] (c : Codec K V)
    (options : StoreOptions) (node : Option FsNode) (st : Store K V)
    (h : Store.openStore c options node = .ok st) : st.options = options := by
  unfold Store.openStore at h
  repeat' split at h
  all_goals first
    | (injection h with h'; subst h'; rfl)
    | simp at h

/-- Witness for C8, at a well-formed file holding an empty body. -/
theorem openStore_keeps_caller_options_witness :
    Store.openStore natCodec opts0 (some (FsNode.file (MAGIC_ID ++ [3, 0]))) =
      .ok { map := ([] : List (Nat × Nat)), options := opts0 } ∧
    ({ map := ([] : List (Nat × Nat)), options := opts0 } : Store Nat Nat).options = opts0 :=
  have h : Store.openStore natCodec opts0 (some (FsNode.file (MAGIC_ID ++ [3, 0]))) =
      .ok { map := ([] : List (Nat × Nat)), options := opts0 } := by rfl
  ⟨h, openStore_keeps_caller_options natCodec opts0
    (some (FsNode.file (MAGIC_ID ++ [3, 0]))) _ h⟩

set_option maxHeartbeats 1000000 in
/-- C2: whenever `save` returns an error — a failure injected at temp-file
creation, either header write, encoder construction, encoding, finishing
the compressed stream, sync, flush, or even the rename itself — the node at
the destination path is exactly what it was before the call: every write
before the rename touches only the temporary path, so no partially-written
destination file ever appears. -/
theorem save_error_leaves_dest [DecidableEq K] (c : Codec K V) (faults : FaultSpec)
    (st : Store K V) (fs : FsState) (e : Error)
    (h : (Store.save c faults st fs).1 = .error e) :
    (Store.save c faults st fs).2.dest = fs.dest := by
  unfold Store.save at h ⊢
  split_ifs at h ⊢ <;> rfl

/-- Witness for C2: a failure injected at the encode step leaves the
previously persisted destination content `[1, 2, 3]` in place. -/
theorem save_error_leaves_dest_witness :
    (Store.save natCodec encodeFault st1 fsPrev).1 = .error .Encode ∧
    (Store.save natCodec encodeFault st1 fsPrev).2.dest = fsPrev.dest :=
  ⟨rfl, save_error_leaves_dest natCodec encodeFault st1 fsPrev .Encode rfl⟩

/-- C1: for every store whose map has unique keys, every compression level
(carried inside `st.options`), and every codec satisfying the collaborator
round-trip laws, a fault-free `save` succeeds and `open` on the destination
node it produced yields a store holding exactly the original key/value
pairs, order-independent. -/
theorem save_open_roundtrip [DecidableEq K] (c : Codec K V)
    (henc : ∀ m : List (K × V), c.decode (c.encode m) = .ok m)
    (hcomp : ∀ (lvl : Int) (b : Bytes), c.decompress (c.compress lvl b) = .ok b)
    (st : Store K V) (hnd : keysNodup st.map) (fs : FsState) (opts2 : StoreOptions) :
    (Store.save c noFaults st fs).1 = .ok () ∧
    ∃ st' : Store K V,
      Store.openStore c opts2 (Store.save c noFaults st fs).2.dest = .ok st' ∧
      ∀ p : K × V, p ∈ st'.map ↔ p ∈ st.map := by
  refine ⟨rfl, { map := st.map, options := opts2 }, ?_, fun p => Iff.rfl⟩
  have hdest : (Store.save c noFaults st fs).2.dest =
      some (FsNode.file (MAGIC_ID ++ VERSION % 256 :: VERSION / 256 % 256 ::
        c.compress st.options.compression_level.lvl (c.encode st.map))) := rfl
  rw [hdest, openStore_of_valid_content c opts2 _ _ st.map (hcomp _ _) (henc _),
    buildMap_eq_self st.map hnd]

/-- Witness for C1, at the concrete two-entry store `st2 = {1 ↦ 10, 2 ↦ 20}`
and the concrete codec `natCodec`. -/
theorem save_open_roundtrip_witness :
    (∀ m : List (Nat × Nat), natCodec.decode (natCodec.encode m) = .ok m) ∧
    (∀ (lvl : Int) (b : Bytes), natCodec.decompress (natCodec.compress lvl b) = .ok b) ∧
    keysNodup st2.map ∧
    ((Store.save natCodec noFaults st2 fsEmpty).1 = .ok () ∧
     ∃ st' : Store Nat Nat,
       Store.openStore natCodec opts0 (Store.save natCodec noFaults st2 fsEmpty).2.dest =
         .ok st' ∧
       ∀ p : Nat × Nat, p ∈ st'.map ↔ p ∈ st2.map) :=
  ⟨fun m => natDecode_natEncode m, fun _ _ => rfl, by decide,
   save_open_roundtrip natCodec (fun m => natDecode_natEncode m) (fun _ _ => rfl)
     st2 (by decide) fsEmpty opts0⟩

/-- C10 counterexample: the 4-byte file `[0, 0, 0, 0]` is shorter than
6 bytes, yet `open` fails with `InvalidFile`, not with an `Io` error — the
magic comparison happens before the version read ever runs out of bytes. -/
theorem openStore_short_file_not_always_io :
    ([0, 0, 0, 0] : Bytes).length < 6 ∧
    Store.openStore natCodec opts0 (some (FsNode.file [0, 0, 0, 0])) = .error .InvalidFile ∧
    ¬ Store.openStore natCodec opts0 (some (FsNode.file [0, 0, 0, 0])) = .error .Io := by
  refine ⟨by decide, rfl, fun he => ?_⟩
  have h2 : (Except.error Error.Io : Except Error (Store Nat Nat)) =
      Except.error Error.InvalidFile := he.symm.trans rfl
  injection h2 with h3
  exact Error.noConfusion h3

/-- C10 amended: on an existing regular file shorter than 6 bytes, `open`
fails with `Io` when the file is shorter than 4 bytes, and also when its
first 4 bytes equal the magic identifier (the version read hits end of
file); but when the file has at least 4 bytes and they differ from the
magic identifier, it fails with `InvalidFile` instead. It never fails with
`WrongVersion`. -/
theorem openStore_short_file_errors [DecidableEq K] (c : Codec K V)
    (options : StoreOptions) (content : Bytes) (hlen : content.length < 6) :
    (content.length < 4 →
      Store.openStore c options (some (FsNode.file content)) = .error .Io) ∧
    (content.take 4 = MAGIC_ID →
      Store.openStore c options (some (FsNode.file content)) = .error .Io) ∧
    (4 ≤ content.length → content.take 4 ≠ MAGIC_ID →
      Store.openStore c options (some (FsNode.file content)) = .error .InvalidFile) := by
  refine ⟨fun h4 => openStore_io_of_short c options content h4, fun hm => ?_,
    fun h4 hm => openStore_bad_magic c options content h4 hm⟩
  have h4 : 4 ≤ content.length := by
    have := congrArg List.length hm
    simp only [List.length_take, MAGIC_ID, List.length_cons, List.length_nil] at this
    omega
  have hc : content = MAGIC_ID ++ content.drop 4 := by
    conv_lhs => rw [← List.take_append_drop 4 content]
    rw [hm]
  rw [hc]
  apply openStore_io_of_magic_short
  rw [List.length_drop]
  omega

/-- Witness for C10's amended claim, at the file holding exactly the magic
identifier and nothing else. -/
theorem openStore_short_file_errors_witness :
    ([0x4F, 0x47, 0x4D, 0x41] : Bytes).length < 6 ∧
    ([0x4F, 0x47, 0x4D, 0x41] : Bytes).take 4 = MAGIC_ID ∧
    Store.openStore natCodec opts0 (some (FsNode.file [0x4F, 0x47, 0x4D, 0x41])) = .error .Io :=
  ⟨by decide, by decide,
   (openStore_short_file_errors natCodec opts0 [0x4F, 0x47, 0x4D, 0x41] (by decide)).2.1
     (by decide)⟩

end Ogma
